import Mathlib

/-!
Shallow embedding of the `hexward` hexagonal-grid library
(`src/hexward/hex_util.py`, `hex_cell.py`, `hex_map.py`).

Conventions used throughout:
* Python `int` is embedded as `Int`; list indices and spiral indices that are
  provably non-negative are embedded as `Nat`.
* Python `%` on a positive modulus agrees with `Int.emod`, which is what `%`
  denotes on `Int` here.
* Python `float` values that the code keeps exactly integral (the offset
  conversions divide an always-even integer by 2) are embedded as exact
  integer division; genuinely fractional values (`cube_round` inputs) are
  embedded as `Rat`, the exact counterpart of the float arithmetic.
* A Python function that can raise is embedded as `Except String _`
  (or `Option _` when only an index error is possible).
-/

/-! ## Definitions -/

/-- Cube coordinate `HexPoint` (hex_util.py lines 31-77): three integers. -/
structure HexPoint where
  q : Int
  r : Int
  s : Int
deriving DecidableEq, Repr

instance : Add HexPoint := ⟨fun a b => ⟨a.q + b.q, a.r + b.r, a.s + b.s⟩⟩

instance : Sub HexPoint := ⟨fun a b => ⟨a.q - b.q, a.r - b.r, a.s - b.s⟩⟩

/-- `HexPoint.__mul__` with an `int` argument (hex_util.py lines 46-47). -/
instance : HMul HexPoint Int HexPoint := ⟨fun p n => ⟨p.q * n, p.r * n, p.s * n⟩⟩

/-- `CUBE_DIRECTIONS` (hex_util.py lines 80-87). -/
def CUBE_DIRECTIONS : List HexPoint :=
  [⟨1, 0, -1⟩, ⟨0, 1, -1⟩, ⟨-1, 1, 0⟩, ⟨-1, 0, 1⟩, ⟨0, -1, 1⟩, ⟨1, -1, 0⟩]

/-- In-range indexing into `CUBE_DIRECTIONS`; used by `cube_ring`, whose loop
variable only takes the values `0..5`. -/
def cubeDir (i : Nat) : HexPoint := CUBE_DIRECTIONS.getD i ⟨0, 0, 0⟩

/-- Python list indexing `l[i]`: negative indices count from the end, and an
index that is still out of range raises `IndexError` (embedded as `none`). -/
def pyListGet (l : List α) (i : Int) : Option α :=
  let j : Int := if i < 0 then i + l.length else i
  if h : 0 ≤ j ∧ j < l.length then some (l.get ⟨j.toNat, by omega⟩) else none

/-- `cube_distance` (hex_util.py lines 134-135). -/
def cube_distance (a b : HexPoint) : Int :=
  (|a.q - b.q| + |a.r - b.r| + |a.s - b.s|) / 2

/-- `cube_neighbor` (hex_util.py lines 138-139): `hex + CUBE_DIRECTIONS[direction]`,
with Python list-indexing semantics for `direction`. -/
def cube_neighbor (hex : HexPoint) (direction : Int) : Option HexPoint :=
  (pyListGet CUBE_DIRECTIONS direction).map (fun d => hex + d)

/-- The inner `for _ in range(radius)` of `cube_ring`: append the current point,
then step in direction `i`, `n` times; returns the appended list and the point
left in the loop variable. -/
def ringWalk (p : HexPoint) (i : Nat) : Nat → List HexPoint × HexPoint
  | 0 => ([], p)
  | n + 1 =>
    let rest := ringWalk (p + cubeDir i) i n
    (p :: rest.1, rest.2)

/-- The outer `for i in range(6)` of `cube_ring`, threading the walking point
through the successive sides. -/
def ringSides (p : HexPoint) (radius : Nat) : List Nat → List HexPoint
  | [] => []
  | i :: is =>
    let w := ringWalk p i radius
    w.1 ++ ringSides w.2 radius is

/-- `cube_ring` (hex_util.py lines 142-157): raises `ValueError` on a negative
radius, returns `[center]` for radius 0, otherwise starts at
`center + CUBE_DIRECTIONS[4] * radius` and walks the six sides. -/
def cube_ring (center : HexPoint) (radius : Int) : Except String (List HexPoint) :=
  if radius < 0 then .error "Radius must be positive"
  else if radius = 0 then .ok [center]
  else .ok (ringSides (center + cubeDir 4 * radius) radius.toNat [0, 1, 2, 3, 4, 5])

/-- `_spiral_index_start_of_ring` (hex_util.py lines 160-163), on the
non-negative integers the code feeds it. -/
def _spiral_index_start_of_ring (radius : Nat) : Nat :=
  if radius = 0 then 0 else 1 + 3 * radius * (radius - 1)

/-- `_spiral_index_to_radius` (hex_util.py lines 165-171).  The source computes
`int((3 + (9 + 12*(index-1))**0.5) / 6)` with float arithmetic; the embedding
uses the integer square root.  The two agree: the truncation
`(3 + x) / 6` crosses an integer only at integer values of `x`, so replacing
the real square root by its floor `Nat.sqrt` does not change the result. -/
def _spiral_index_to_radius (index : Nat) : Nat :=
  if index = 0 then 0 else (3 + Nat.sqrt (9 + 12 * (index - 1))) / 6

/-- The `for i, ring_hex in enumerate(...)` search inside `cube_to_spiral`:
index of the first occurrence of `x`. -/
def firstIdx (x : HexPoint) : List HexPoint → Option Nat
  | [] => none
  | a :: t => if a = x then some 0 else (firstIdx x t).map (· + 1)

/-- `cube_to_spiral` (hex_util.py lines 174-181).  `cube_distance` is
non-negative, so taking `toNat` of the radius for `_spiral_index_start_of_ring`
is exact. -/
def cube_to_spiral (point : HexPoint) : Except String Nat :=
  let center : HexPoint := ⟨0, 0, 0⟩
  let radius := cube_distance point center
  match cube_ring center radius with
  | .error e => .error e
  | .ok ring_hexes =>
    match firstIdx point ring_hexes with
    | some i => .ok (i + _spiral_index_start_of_ring radius.toNat)
    | none => .error "Hex not found in ring"

/-- `spiral_to_cube` (hex_util.py lines 183-187), for the non-negative indices
the claim quantifies over; `cube_ring(center, radius)[index - ringstart]` uses
Python list indexing. -/
def spiral_to_cube (index : Nat) : Option HexPoint :=
  let center : HexPoint := ⟨0, 0, 0⟩
  let radius := _spiral_index_to_radius index
  let ringstart := _spiral_index_start_of_ring radius
  match cube_ring center (radius : Int) with
  | .ok l => pyListGet l ((index : Int) - (ringstart : Int))
  | .error _ => none

/-- The corner at which side `m` of the radius-`r` ring around `c` starts:
`center + CUBE_DIRECTIONS[4] * radius`, then one full side per previous
direction. -/
def sideStart (c : HexPoint) (r : Int) : Nat → HexPoint
  | 0 => c + cubeDir 4 * r
  | m + 1 => sideStart c r m + cubeDir m * r

/-- Side `m` of the radius-`r` ring around `c`: `r` unit steps in direction `m`
starting at `sideStart c r m`, the point appended before each step. -/
def sideListC (c : HexPoint) (r : Nat) (m : Nat) : List HexPoint :=
  (List.range r).map (fun (k : Nat) => sideStart c (r : Int) m + cubeDir m * (k : Int))

/-- The full ring of radius `r ≥ 1` around `c` as the six sides in walk order. -/
def ringListC (c : HexPoint) (r : Nat) : List HexPoint :=
  sideListC c r 0 ++ (sideListC c r 1 ++ (sideListC c r 2 ++
    (sideListC c r 3 ++ (sideListC c r 4 ++ sideListC c r 5))))

/-- The explicit coordinates of the `k`-th point on side `m` of the radius-`r`
ring around the origin. -/
def sidePoint (r : Int) : Nat → Int → HexPoint
  | 0, k => ⟨k, -r, r - k⟩
  | 1, k => ⟨r, -r + k, -k⟩
  | 2, k => ⟨r - k, k, -r⟩
  | 3, k => ⟨-k, r, -r + k⟩
  | 4, k => ⟨-r, r - k, k⟩
  | _ + 5, k => ⟨-r + k, -k, r⟩

/-- Position of a ring point inside the walk enumeration of its own ring:
the left inverse of `sidePoint` used to show the enumeration has no
repetitions. -/
def ringIdx (r : Int) (p : HexPoint) : Nat :=
  if p.r = -r ∧ 0 ≤ p.q ∧ p.q < r then p.q.toNat
  else if p.q = r ∧ -r ≤ p.r ∧ p.r < 0 then (2 * r + p.r).toNat
  else if p.s = -r ∧ 0 ≤ p.r ∧ p.r < r then (2 * r + p.r).toNat
  else if p.r = r ∧ -r < p.q ∧ p.q ≤ 0 then (3 * r - p.q).toNat
  else if p.q = -r ∧ 0 < p.r ∧ p.r ≤ r then (5 * r - p.r).toNat
  else (5 * r - p.r).toNat

/-- `_cube_to_oddr` (hex_util.py lines 105-110).  Python computes
`(r - parity) / 2` with float division, but `r - r % 2` is always even, so the
value is exactly the integer quotient used here. -/
def _cube_to_oddr (q r s : Int) : Int × Int :=
  let parity := r % 2
  let col := q + (r - parity) / 2
  let row := r
  (col, row)

/-- `_oddr_to_cube` (hex_util.py lines 112-117): note the source sets `r = x`
and derives `q` from `y`, the transpose of `_cube_to_oddr`'s `(col, row)`. -/
def _oddr_to_cube (x y : Int) : HexPoint :=
  let parity := x % 2
  let q := y - (x - parity) / 2
  let r := x
  ⟨q, r, -q - r⟩

/-- `_cube_to_oddq` (hex_util.py lines 120-125). -/
def _cube_to_oddq (q r s : Int) : Int × Int :=
  let parity := q % 2
  let col := q
  let row := r + (q - parity) / 2
  (col, row)

/-- `_oddq_to_cube` (hex_util.py lines 127-132). -/
def _oddq_to_cube (x y : Int) : HexPoint :=
  let parity := x % 2
  let q := x
  let r := y - (x - parity) / 2
  ⟨q, r, -q - r⟩

/-- `_angle_to_math_angle` (hex_util.py lines 99-100); `%` is Python's
non-negative remainder, i.e. `Int.emod`. -/
def _angle_to_math_angle (angle : Int) : Int := (-1 * (angle - 90)) % 360

/-- `_math_angle_to_angle` (hex_util.py lines 102-103). -/
def _math_angle_to_angle (angle : Int) : Int := (-1 * (angle + 90)) % 360

/-- Python's built-in `round`: nearest integer, halves to the even neighbour. -/
def pyRound (x : Rat) : Int :=
  let f := Int.floor x
  if x - f < 1 / 2 then f
  else if 1 / 2 < x - f then f + 1
  else if f % 2 = 0 then f else f + 1

/-- `cube_round` (hex_util.py lines 201-220), with the float inputs embedded as
exact rationals; `frac_s = None` is the `Option` argument. -/
def cube_round (frac_q frac_r : Rat) (frac_s : Option Rat) : HexPoint :=
  let frac_s := match frac_s with
    | none => -frac_q - frac_r
    | some v => v
  let q := pyRound frac_q
  let r := pyRound frac_r
  let s := pyRound frac_s
  let q_diff := |(q : Rat) - frac_q|
  let r_diff := |(r : Rat) - frac_r|
  let s_diff := |(s : Rat) - frac_s|
  if q_diff > r_diff ∧ q_diff > s_diff then ⟨-r - s, r, s⟩
  else if r_diff > s_diff then ⟨q, -q - s, s⟩
  else ⟨q, r, -q - r⟩

/-- `GridOrientation` (hex_util.py lines 89-96). -/
inductive GridOrientation
  | POINTY_TOP
  | FLAT_TOP
deriving DecidableEq, Repr

/-- `GridOrientation.toggle` (hex_util.py lines 93-96). -/
def GridOrientation.toggle : GridOrientation → GridOrientation
  | .POINTY_TOP => .FLAT_TOP
  | .FLAT_TOP => .POINTY_TOP

/-- `Size` (hex_util.py lines 24-29).  The source stores Python numbers; the
states the claims examine only ever hold the literal `Size(0, 0)`, embedded
with exact rational components. -/
structure Size where
  width : Rat
  height : Rat
deriving DecidableEq, Repr

/-- `Size.__bool__` (hex_util.py lines 28-29): truthy iff both dimensions are
positive. -/
def Size.truthy (s : Size) : Bool := decide (0 < s.width) && decide (0 < s.height)

/-- `HexCell` state (hex_cell.py lines 22-28): orientation, radius, point,
payload (`None` = `Option.none`) and the two lazily-filled caches
(`_size` starts as the falsy `Size(0, 0)`, `_pixel_xy` as `None`). -/
structure HexCell (α : Type) where
  _orientation : GridOrientation
  _radius : Int
  _point : HexPoint
  _data : Option α
  _size : Size
  _pixel_xy : Option (Rat × Rat)

/-- `HexCell.__init__` (hex_cell.py lines 22-28). -/
def HexCell.init (o : GridOrientation) (p : HexPoint) (radius : Int)
    (data : Option α) : HexCell α :=
  ⟨o, radius, p, data, ⟨0, 0⟩, none⟩

/-- `HexCell.clearcache` (hex_cell.py lines 149-150). -/
def HexCell.clearcache (c : HexCell α) : HexCell α := { c with _pixel_xy := none }

/-- The `data` property setter (hex_cell.py lines 76-78). -/
def HexCell.setData (c : HexCell α) (d : Option α) : HexCell α := { c with _data := d }

/-- `HexMap` state (hex_map.py lines 23-30); `_grid` is the Python dict in
insertion order. -/
structure HexMap (α : Type) where
  _orientation : GridOrientation
  _radius : Int
  _grid : List (HexPoint × HexCell α)
  _spacing : Size
  _reference : HexCell α
  _offset : Size

/-- `HexMap.__init__` (hex_map.py lines 23-30). -/
def HexMap.init (radius : Int) (orientation : GridOrientation) : HexMap α :=
  ⟨orientation, radius, [], ⟨0, 0⟩, HexCell.init orientation ⟨0, 0, 0⟩ radius none, ⟨0, 0⟩⟩

/-- Python dict lookup by key. -/
def dictGet (g : List (HexPoint × HexCell α)) (p : HexPoint) : Option (HexCell α) :=
  match g with
  | [] => none
  | e :: t => if e.1 = p then some e.2 else dictGet t p

/-- Python dict assignment: an existing key keeps its position, a new key is
appended at the end. -/
def dictSet (g : List (HexPoint × HexCell α)) (p : HexPoint) (c : HexCell α) :
    List (HexPoint × HexCell α) :=
  match g with
  | [] => [(p, c)]
  | e :: t => if e.1 = p then (p, c) :: t else e :: dictSet t p c

/-- `HexMap.__contains__` (hex_map.py lines 32-34). -/
def HexMap.contains (m : HexMap α) (p : HexPoint) : Bool := (dictGet m._grid p).isSome

/-- `HexMap.get` / `__getitem__` (hex_map.py lines 36-37, 120-121); `none`
stands for the `KeyError` on an absent key. -/
def HexMap.get (m : HexMap α) (p : HexPoint) : Option (HexCell α) := dictGet m._grid p

/-- `HexMap.set` (hex_map.py lines 111-118): stores a freshly constructed cell
at `point`.  (The `isinstance` unwrapping of a cell payload and the tuple
shorthand are dynamic-typing conveniences with no counterpart in the typed
embedding.) -/
def HexMap.set (m : HexMap α) (p : HexPoint) (data : Option α) : HexMap α :=
  { m with _grid := dictSet m._grid p (HexCell.init m._orientation p m._radius data) }

/-- `HexMap.swap` (hex_map.py lines 126-132): raise `ValueError` when either
point is missing, otherwise exchange the two cells' payloads in place and
clear both pixel caches. -/
def HexMap.swap (m : HexMap α) (p1 p2 : HexPoint) : Except String (HexMap α) :=
  if (m.contains p1 && m.contains p2) = false then
    .error "One or both points are not in the map"
  else
    match dictGet m._grid p1, dictGet m._grid p2 with
    | some c1, some c2 =>
      let g1 := dictSet m._grid p1 ((c1.setData c2._data).clearcache)
      let g2 := dictSet g1 p2 ((c2.setData c1._data).clearcache)
      .ok { m with _grid := g2 }
    | _, _ => .error "One or both points are not in the map"

/-- `HexMap.fill_to_radius` (hex_map.py lines 134-138): for `i` in
`range(radius)`, insert every point of `cube_ring(origin, i)` that is not yet
present, with payload `None`. -/
def HexMap.fill_to_radius (m : HexMap α) (radius : Int) : Except String (HexMap α) :=
  (List.range radius.toNat).foldlM
    (fun (g : HexMap α) (i : Nat) =>
      match cube_ring ⟨0, 0, 0⟩ (i : Int) with
      | .error e => .error e
      | .ok pts => .ok (pts.foldl
          (fun g2 point => if g2.contains point then g2 else g2.set point none) g))
    m

/-- `HexMap.spacing` (hex_map.py lines 68-78).  `Size` is a `NamedTuple`,
whose fields are read-only: when the cached `_spacing` is falsy the getter's
first statement `self._spacing.width = ...` raises `AttributeError`, embedded
as the error outcome; when the cache is truthy it is returned.  (`__init__`
sets `_spacing = Size(0, 0)`, which is falsy, and nothing else ever rebinds
`_spacing`, so a live map's getter always raises.) -/
def HexMap.spacing (m : HexMap α) : Except String Size :=
  if m._spacing.truthy then .ok m._spacing
  else .error "AttributeError: cannot set attribute"

/-- A Python value passed positionally to a conversion helper: the call sites
under scrutiny pass either `int`s or a `HexPoint`. -/
inductive PyVal
  | int (n : Int)
  | pt (p : HexPoint)

/-- Python call protocol for the three-parameter `_cube_to_oddr`: anything
other than three ints raises `TypeError` before the body runs. -/
def _cube_to_oddr_call (args : List PyVal) : Except String (Int × Int) :=
  match args with
  | [PyVal.int q, PyVal.int r, PyVal.int s] => .ok (_cube_to_oddr q r s)
  | _ => .error "TypeError: _cube_to_oddr() missing 2 required positional arguments"

/-- Python call protocol for the three-parameter `_cube_to_oddq`. -/
def _cube_to_oddq_call (args : List PyVal) : Except String (Int × Int) :=
  match args with
  | [PyVal.int q, PyVal.int r, PyVal.int s] => .ok (_cube_to_oddq q r s)
  | _ => .error "TypeError: _cube_to_oddq() missing 2 required positional arguments"

/-- `HexCell.xy` getter (hex_cell.py lines 80-85): passes the single value
`self._point` to the three-parameter conversion helper of the cell's
orientation. -/
def HexCell.xy (c : HexCell α) : Except String (Int × Int) :=
  if c._orientation = GridOrientation.POINTY_TOP then
    _cube_to_oddr_call [PyVal.pt c._point]
  else
    _cube_to_oddq_call [PyVal.pt c._point]

/-- `HexCell.x` (hex_cell.py lines 94-96). -/
def HexCell.x (c : HexCell α) : Except String Int := c.xy.map Prod.fst

/-- `HexCell.y` (hex_cell.py lines 98-100). -/
def HexCell.y (c : HexCell α) : Except String Int := c.xy.map Prod.snd

/-- A two-cell grid used by the swap witness. -/
def swapDemo : HexMap Nat :=
  ((HexMap.init 100 GridOrientation.POINTY_TOP).set ⟨0, 0, 0⟩ (some 1)).set
    ⟨1, 0, -1⟩ (some 2)

/-- The list `cube_ring(origin, i)` returns for each non-negative radius. -/
def ringL : Nat → List HexPoint
  | 0 => [⟨0, 0, 0⟩]
  | n + 1 => ringListC ⟨0, 0, 0⟩ (n + 1)

/-- The rings of radii `0..n-1`, concatenated in ascending radius order. -/
def ringJoin : Nat → List HexPoint
  | 0 => []
  | n + 1 => ringJoin n ++ ringL n

/-- The body of `fill_to_radius`'s inner loop. -/
def fillStep (g : HexMap α) (p : HexPoint) : HexMap α :=
  if g.contains p then g else g.set p none

/-- The key sequence produced by repeatedly inserting missing points. -/
def insertedKeys (ks : List HexPoint) : List HexPoint → List HexPoint
  | [] => ks
  | p :: rest => if p ∈ ks then insertedKeys ks rest else insertedKeys (ks ++ [p]) rest

/-! ## Theorems -/

theorem HexPoint.add_def (a b : HexPoint) : a + b = ⟨a.q + b.q, a.r + b.r, a.s + b.s⟩ := rfl

theorem HexPoint.mul_def (p : HexPoint) (n : Int) : p * n = ⟨p.q * n, p.r * n, p.s * n⟩ := rfl

@[simp] theorem HexPoint.add_q (a b : HexPoint) : (a + b).q = a.q + b.q := rfl

@[simp] theorem HexPoint.add_r (a b : HexPoint) : (a + b).r = a.r + b.r := rfl

@[simp] theorem HexPoint.add_s (a b : HexPoint) : (a + b).s = a.s + b.s := rfl

@[simp] theorem HexPoint.mul_q (p : HexPoint) (n : Int) : (p * n).q = p.q * n := rfl

@[simp] theorem HexPoint.mul_r (p : HexPoint) (n : Int) : (p * n).r = p.r * n := rfl

@[simp] theorem HexPoint.mul_s (p : HexPoint) (n : Int) : (p * n).s = p.s * n := rfl

theorem HexPoint.ext_components {a b : HexPoint}
    (hq : a.q = b.q) (hr : a.r = b.r) (hs : a.s = b.s) : a = b := by
  cases a; cases b; simp_all

theorem ringWalk_eq (i : Nat) : ∀ (n : Nat) (p : HexPoint),
    ringWalk p i n =
      ((List.range n).map (fun (k : Nat) => p + cubeDir i * (k : Int)), p + cubeDir i * (n : Int))
  | 0, p => by
    simp [ringWalk, HexPoint.mul_def, HexPoint.add_def]
  | n + 1, p => by
    rw [ringWalk, ringWalk_eq i n (p + cubeDir i)]
    refine Prod.ext ?_ ?_
    · show p :: _ = _
      rw [List.range_succ_eq_map, List.map_cons, List.map_map]
      refine congrArg₂ _ ?_ ?_
      · refine HexPoint.ext_components ?_ ?_ ?_ <;> simp
      · refine List.map_congr_left fun k _ => ?_
        refine HexPoint.ext_components ?_ ?_ ?_ <;>
          simp [Function.comp, Nat.succ_eq_add_one] <;> ring
    · show p + cubeDir i + cubeDir i * (n : Int) = p + cubeDir i * ((n : Nat) + 1 : Int)
      refine HexPoint.ext_components ?_ ?_ ?_ <;> simp <;> ring

theorem cube_ring_pos (c : HexPoint) (r : Nat) (hr : 1 ≤ r) :
    cube_ring c (r : Int) = .ok (ringListC c r) := by
  have h0 : ¬ ((r : Int) < 0) := by omega
  have h1 : ¬ ((r : Int) = 0) := by omega
  rw [cube_ring, if_neg h0, if_neg h1]
  have ht : ((r : Int)).toNat = r := by omega
  rw [ht]
  show Except.ok (ringSides (c + cubeDir 4 * (r : Int)) r [0, 1, 2, 3, 4, 5]) = _
  refine congrArg _ ?_
  simp only [ringSides, ringWalk_eq, List.append_nil]
  rfl

theorem sideStart_shift (c : HexPoint) (r : Int) :
    ∀ m : Nat, sideStart c r m = c + sideStart ⟨0, 0, 0⟩ r m
  | 0 => by
    refine HexPoint.ext_components ?_ ?_ ?_ <;> simp [sideStart]
  | m + 1 => by
    rw [sideStart, sideStart, sideStart_shift c r m]
    refine HexPoint.ext_components ?_ ?_ ?_ <;> simp <;> ring

theorem side_point_eq (r : Int) (k : Int) :
    ∀ m : Nat, m < 6 →
      sideStart ⟨0, 0, 0⟩ r m + cubeDir m * k = sidePoint r m k
  | 0, _ => by
    refine HexPoint.ext_components ?_ ?_ ?_ <;>
      simp [sideStart, sidePoint, cubeDir, CUBE_DIRECTIONS] <;> ring
  | 1, _ => by
    refine HexPoint.ext_components ?_ ?_ ?_ <;>
      simp [sideStart, sidePoint, cubeDir, CUBE_DIRECTIONS] <;> ring
  | 2, _ => by
    refine HexPoint.ext_components ?_ ?_ ?_ <;>
      simp [sideStart, sidePoint, cubeDir, CUBE_DIRECTIONS] <;> ring
  | 3, _ => by
    refine HexPoint.ext_components ?_ ?_ ?_ <;>
      simp [sideStart, sidePoint, cubeDir, CUBE_DIRECTIONS] <;> ring
  | 4, _ => by
    refine HexPoint.ext_components ?_ ?_ ?_ <;>
      simp [sideStart, sidePoint, cubeDir, CUBE_DIRECTIONS] <;> ring
  | 5, _ => by
    refine HexPoint.ext_components ?_ ?_ ?_ <;>
      simp [sideStart, sidePoint, cubeDir, CUBE_DIRECTIONS] <;> ring
  | n + 6, h => by omega

theorem cube_distance_comm (a b : HexPoint) : cube_distance a b = cube_distance b a := by
  simp [cube_distance, abs_sub_comm]

theorem sidePoint_dist (r : Int) (m : Nat) (k : Int)
    (hr : 1 ≤ r) (hm : m < 6) (hk0 : 0 ≤ k) (hk : k < r) :
    cube_distance (sidePoint r m k) ⟨0, 0, 0⟩ = r := by
  match m, hm with
  | 0, _ => simp only [sidePoint, cube_distance, Int.abs_eq_natAbs]; omega
  | 1, _ => simp only [sidePoint, cube_distance, Int.abs_eq_natAbs]; omega
  | 2, _ => simp only [sidePoint, cube_distance, Int.abs_eq_natAbs]; omega
  | 3, _ => simp only [sidePoint, cube_distance, Int.abs_eq_natAbs]; omega
  | 4, _ => simp only [sidePoint, cube_distance, Int.abs_eq_natAbs]; omega
  | 5, _ => simp only [sidePoint, cube_distance, Int.abs_eq_natAbs]; omega

theorem sidePoint_sum (r : Int) (m : Nat) (k : Int) (hm : m < 6) :
    (sidePoint r m k).q + (sidePoint r m k).r + (sidePoint r m k).s = 0 := by
  match m, hm with
  | 0, _ => show k + -r + (r - k) = 0; ring
  | 1, _ => show r + (-r + k) + -k = 0; ring
  | 2, _ => show r - k + k + -r = 0; ring
  | 3, _ => show -k + r + (-r + k) = 0; ring
  | 4, _ => show -r + (r - k) + k = 0; ring
  | 5, _ => show -r + k + -k + r = 0; ring

theorem ringIdx_sidePoint (r : Nat) (m : Nat) (k : Nat)
    (hr : 1 ≤ r) (hm : m < 6) (hk : k < r) :
    ringIdx (r : Int) (sidePoint (r : Int) m (k : Int)) = m * r + k := by
  match m, hm with
  | 0, _ => simp only [sidePoint, ringIdx, true_and, and_true]; split_ifs <;> omega
  | 1, _ => simp only [sidePoint, ringIdx, true_and, and_true]; split_ifs <;> omega
  | 2, _ => simp only [sidePoint, ringIdx, true_and, and_true]; split_ifs <;> omega
  | 3, _ => simp only [sidePoint, ringIdx, true_and, and_true]; split_ifs <;> omega
  | 4, _ => simp only [sidePoint, ringIdx, true_and, and_true]; split_ifs <;> omega
  | 5, _ => simp only [sidePoint, ringIdx, true_and, and_true]; split_ifs <;> omega

theorem sideListC_getElem (c : HexPoint) (r m k : Nat) (hk : k < r) :
    (sideListC c r m)[k]? = some (sideStart c (r : Int) m + cubeDir m * (k : Int)) := by
  simp [sideListC, List.getElem?_range hk]

theorem sideListC_length (c : HexPoint) (r m : Nat) : (sideListC c r m).length = r := by
  simp [sideListC]

theorem ringListC_length (c : HexPoint) (r : Nat) : (ringListC c r).length = 6 * r := by
  simp [ringListC, sideListC]; omega

theorem ringListC_getElem (r : Nat) (hr : 1 ≤ r) :
    ∀ m k : Nat, m < 6 → k < r →
      (ringListC ⟨0, 0, 0⟩ r)[m * r + k]? = some (sidePoint (r : Int) m (k : Int)) := by
  have hl := sideListC_length (⟨0, 0, 0⟩ : HexPoint) r
  intro m k hm hk
  match m, hm with
  | 0, _ =>
    have e : 0 * r + k = k := by omega
    rw [ringListC, e, List.getElem?_append_left (by rw [hl]; omega),
        sideListC_getElem _ _ _ _ hk, side_point_eq _ _ 0 (by omega)]
  | 1, _ =>
    have e0 : 1 * r + k - r = k := by omega
    rw [ringListC, List.getElem?_append_right (by rw [hl]; omega), hl, e0,
        List.getElem?_append_left (by rw [hl]; omega),
        sideListC_getElem _ _ _ _ hk, side_point_eq _ _ 1 (by omega)]
  | 2, _ =>
    have e0 : 2 * r + k - r = 1 * r + k := by omega
    have e1 : 1 * r + k - r = k := by omega
    rw [ringListC, List.getElem?_append_right (by rw [hl]; omega), hl, e0,
        List.getElem?_append_right (by rw [hl]; omega), hl, e1,
        List.getElem?_append_left (by rw [hl]; omega),
        sideListC_getElem _ _ _ _ hk, side_point_eq _ _ 2 (by omega)]
  | 3, _ =>
    have e0 : 3 * r + k - r = 2 * r + k := by omega
    have e1 : 2 * r + k - r = 1 * r + k := by omega
    have e2 : 1 * r + k - r = k := by omega
    rw [ringListC, List.getElem?_append_right (by rw [hl]; omega), hl, e0,
        List.getElem?_append_right (by rw [hl]; omega), hl, e1,
        List.getElem?_append_right (by rw [hl]; omega), hl, e2,
        List.getElem?_append_left (by rw [hl]; omega),
        sideListC_getElem _ _ _ _ hk, side_point_eq _ _ 3 (by omega)]
  | 4, _ =>
    have e0 : 4 * r + k - r = 3 * r + k := by omega
    have e1 : 3 * r + k - r = 2 * r + k := by omega
    have e2 : 2 * r + k - r = 1 * r + k := by omega
    have e3 : 1 * r + k - r = k := by omega
    rw [ringListC, List.getElem?_append_right (by rw [hl]; omega), hl, e0,
        List.getElem?_append_right (by rw [hl]; omega), hl, e1,
        List.getElem?_append_right (by rw [hl]; omega), hl, e2,
        List.getElem?_append_right (by rw [hl]; omega), hl, e3,
        List.getElem?_append_left (by rw [hl]; omega),
        sideListC_getElem _ _ _ _ hk, side_point_eq _ _ 4 (by omega)]
  | 5, _ =>
    have e0 : 5 * r + k - r = 4 * r + k := by omega
    have e1 : 4 * r + k - r = 3 * r + k := by omega
    have e2 : 3 * r + k - r = 2 * r + k := by omega
    have e3 : 2 * r + k - r = 1 * r + k := by omega
    have e4 : 1 * r + k - r = k := by omega
    rw [ringListC, List.getElem?_append_right (by rw [hl]; omega), hl, e0,
        List.getElem?_append_right (by rw [hl]; omega), hl, e1,
        List.getElem?_append_right (by rw [hl]; omega), hl, e2,
        List.getElem?_append_right (by rw [hl]; omega), hl, e3,
        List.getElem?_append_right (by rw [hl]; omega), hl, e4,
        sideListC_getElem _ _ _ _ hk, side_point_eq _ _ 5 (by omega)]

theorem ringListC_getElem_div (r : Nat) (hr : 1 ≤ r) (j : Nat) (hj : j < 6 * r) :
    (ringListC ⟨0, 0, 0⟩ r)[j]? = some (sidePoint (r : Int) (j / r) ((j % r : Nat) : Int)) := by
  have hdm := Nat.div_add_mod j r
  have h1 : j / r < 6 := (Nat.div_lt_iff_lt_mul (by omega)).2 (by omega)
  have h2 : j % r < r := Nat.mod_lt _ (by omega)
  have h3 : (j / r) * r + j % r = j := by rw [Nat.mul_comm]; exact hdm
  have h4 := ringListC_getElem r hr (j / r) (j % r) h1 h2
  rw [h3] at h4
  exact h4

theorem mem_ringListC (r : Nat) (hr : 1 ≤ r) (p : HexPoint) :
    p ∈ ringListC ⟨0, 0, 0⟩ r ↔
      ∃ m k : Nat, m < 6 ∧ k < r ∧ p = sidePoint (r : Int) m (k : Int) := by
  constructor
  · intro hp
    obtain ⟨j, hj⟩ := List.mem_iff_getElem?.1 hp
    have hjl : j < 6 * r := by
      have := List.getElem?_eq_some_iff.1 hj
      obtain ⟨h, _⟩ := this
      rw [ringListC_length] at h
      exact h
    have := ringListC_getElem_div r hr j hjl
    rw [hj] at this
    refine ⟨j / r, j % r, (Nat.div_lt_iff_lt_mul (by omega)).2 (by omega),
      Nat.mod_lt _ (by omega), ?_⟩
    exact Option.some_injective _ this
  · rintro ⟨m, k, hm, hk, rfl⟩
    exact List.mem_iff_getElem?.2 ⟨m * r + k, ringListC_getElem r hr m k hm hk⟩

theorem ringListC_nodup (r : Nat) (hr : 1 ≤ r) : (ringListC ⟨0, 0, 0⟩ r).Nodup := by
  rw [List.nodup_iff_injective_get]
  rintro ⟨i, hi⟩ ⟨j, hj⟩ hij
  rw [ringListC_length] at hi hj
  have hgi := ringListC_getElem_div r hr i hi
  have hgj := ringListC_getElem_div r hr j hj
  have hi2 : (ringListC ⟨0, 0, 0⟩ r).get ⟨i, by rw [ringListC_length]; exact hi⟩ =
      sidePoint (r : Int) (i / r) ((i % r : Nat) : Int) := by
    have he := List.getElem?_eq_getElem (l := ringListC ⟨0, 0, 0⟩ r)
      (n := i) (by rw [ringListC_length]; exact hi)
    rw [he] at hgi
    exact Option.some_injective _ hgi
  have hj2 : (ringListC ⟨0, 0, 0⟩ r).get ⟨j, by rw [ringListC_length]; exact hj⟩ =
      sidePoint (r : Int) (j / r) ((j % r : Nat) : Int) := by
    have he := List.getElem?_eq_getElem (l := ringListC ⟨0, 0, 0⟩ r)
      (n := j) (by rw [ringListC_length]; exact hj)
    rw [he] at hgj
    exact Option.some_injective _ hgj
  have hsp : sidePoint (r : Int) (i / r) ((i % r : Nat) : Int) =
      sidePoint (r : Int) (j / r) ((j % r : Nat) : Int) := by
    rw [← hi2, ← hj2]; exact hij
  have hdi : i / r < 6 := (Nat.div_lt_iff_lt_mul (by omega)).2 (by omega)
  have hdj : j / r < 6 := (Nat.div_lt_iff_lt_mul (by omega)).2 (by omega)
  have hri := ringIdx_sidePoint r (i / r) (i % r) hr hdi (Nat.mod_lt _ (by omega))
  have hrj := ringIdx_sidePoint r (j / r) (j % r) hr hdj (Nat.mod_lt _ (by omega))
  rw [hsp, hrj] at hri
  have hdmi := Nat.div_add_mod i r
  have hdmj := Nat.div_add_mod j r
  have : i = j := by
    have h1 : i / r * r + i % r = i := by rw [Nat.mul_comm]; exact hdmi
    have h2 : j / r * r + j % r = j := by rw [Nat.mul_comm]; exact hdmj
    omega
  exact Fin.ext this

set_option maxHeartbeats 1000000 in
/-- Every zero-sum point at distance `d ≥ 1` from the origin lies on one of the
six sides of the radius-`d` walk. -/
theorem ring_complete (p : HexPoint) (d : Int)
    (h0 : p.q + p.r + p.s = 0) (hd : cube_distance p ⟨0, 0, 0⟩ = d) (h1 : 1 ≤ d) :
    ∃ m k : Nat, m < 6 ∧ (k : Int) < d ∧ p = sidePoint d m (k : Int) := by
  obtain ⟨q, rc, s⟩ := p
  simp only [cube_distance, Int.abs_eq_natAbs] at hd
  simp only at h0
  have hsum : (q.natAbs : Int) + rc.natAbs + s.natAbs = 2 * d := by omega
  by_cases c0 : rc = -d ∧ 0 ≤ q ∧ q < d
  · refine ⟨0, q.toNat, by omega, by omega, ?_⟩
    refine HexPoint.ext_components ?_ ?_ ?_ <;> simp [sidePoint] <;> omega
  by_cases c1 : q = d ∧ -d ≤ rc ∧ rc < 0
  · refine ⟨1, (rc + d).toNat, by omega, by omega, ?_⟩
    refine HexPoint.ext_components ?_ ?_ ?_ <;> simp [sidePoint] <;> omega
  by_cases c2 : s = -d ∧ 0 ≤ rc ∧ rc < d
  · refine ⟨2, rc.toNat, by omega, by omega, ?_⟩
    refine HexPoint.ext_components ?_ ?_ ?_ <;> simp [sidePoint] <;> omega
  by_cases c3 : rc = d ∧ -d < q ∧ q ≤ 0
  · refine ⟨3, (-q).toNat, by omega, by omega, ?_⟩
    refine HexPoint.ext_components ?_ ?_ ?_ <;> simp [sidePoint] <;> omega
  by_cases c4 : q = -d ∧ 0 < rc ∧ rc ≤ d
  · refine ⟨4, (d - rc).toNat, by omega, by omega, ?_⟩
    refine HexPoint.ext_components ?_ ?_ ?_ <;> simp [sidePoint] <;> omega
  by_cases c5 : s = d ∧ -d < rc ∧ rc ≤ 0
  · refine ⟨5, (-rc).toNat, by omega, by omega, ?_⟩
    refine HexPoint.ext_components ?_ ?_ ?_ <;> simp [sidePoint] <;> omega
  exact absurd hsum (by omega)

/-- `firstIdx` returns `n` when position `n` holds `x` and no earlier position
does. -/
theorem firstIdx_eq_of (x : HexPoint) :
    ∀ (l : List HexPoint) (n : Nat), l[n]? = some x →
      (∀ j, j < n → l[j]? ≠ some x) → firstIdx x l = some n
  | [], n, hget, _ => by simp at hget
  | a :: t, 0, hget, _ => by
    simp at hget
    simp [firstIdx, hget]
  | a :: t, n + 1, hget, hne => by
    have ha : ¬ (a = x) := by
      intro h
      exact hne 0 (by omega) (by simp [h])
    rw [firstIdx, if_neg ha]
    have ht : firstIdx x t = some n := by
      refine firstIdx_eq_of x t n ?_ ?_
      · simpa using hget
      · intro j hj hc
        exact hne (j + 1) (by omega) (by simpa using hc)
    rw [ht]
    rfl

/-- The walk enumeration finds each of its points first at its own position. -/
theorem firstIdx_ring (r m k : Nat) (hr : 1 ≤ r) (hm : m < 6) (hk : k < r) :
    firstIdx (sidePoint (r : Int) m (k : Int)) (ringListC ⟨0, 0, 0⟩ r) =
      some (m * r + k) := by
  refine firstIdx_eq_of _ _ _ (ringListC_getElem r hr m k hm hk) ?_
  intro j hj hc
  have hjl : j < 6 * r := by
    have hmr : m * r ≤ 5 * r := Nat.mul_le_mul_right r (by omega)
    omega
  have hdiv := ringListC_getElem_div r hr j hjl
  rw [hc] at hdiv
  have hpe : sidePoint (r : Int) m (k : Int) = sidePoint (r : Int) (j / r) ((j % r : Nat) : Int) :=
    Option.some_injective _ hdiv
  have hdj : j / r < 6 := (Nat.div_lt_iff_lt_mul (by omega)).2 (by omega)
  have hri := ringIdx_sidePoint r m k hr hm hk
  have hrj := ringIdx_sidePoint r (j / r) (j % r) hr hdj (Nat.mod_lt _ (by omega))
  rw [hpe, hrj] at hri
  have hdm : j / r * r + j % r = j := by
    rw [Nat.mul_comm]; exact Nat.div_add_mod j r
  omega

theorem start_of_ring_succ (m : Nat) :
    _spiral_index_start_of_ring (m + 1) = 1 + 3 * (m + 1) * m := by
  simp [_spiral_index_start_of_ring]

theorem radius_of_index (m j : Nat) (hj : j < 6 * (m + 1)) :
    _spiral_index_to_radius (_spiral_index_start_of_ring (m + 1) + j) = m + 1 := by
  have hs := start_of_ring_succ m
  have hql : 12 * (3 * (m + 1) * m) + 9 = (6 * m + 3) * (6 * m + 3) := by ring
  have hD : 9 + 12 * (_spiral_index_start_of_ring (m + 1) + j - 1) =
      (6 * m + 3) * (6 * m + 3) + 12 * j := by omega
  have hlow : 6 * m + 3 ≤ Nat.sqrt (9 + 12 * (_spiral_index_start_of_ring (m + 1) + j - 1)) := by
    rw [hD]
    exact Nat.le_sqrt.2 (by omega)
  have hq2 : (6 * m + 9) * (6 * m + 9) = (6 * m + 3) * (6 * m + 3) + 72 * m + 72 := by ring
  have hhigh : Nat.sqrt (9 + 12 * (_spiral_index_start_of_ring (m + 1) + j - 1)) < 6 * m + 9 := by
    rw [hD]
    exact Nat.sqrt_lt.2 (by omega)
  have hnz : ¬ (_spiral_index_start_of_ring (m + 1) + j = 0) := by omega
  rw [_spiral_index_to_radius, if_neg hnz]
  omega

theorem radius_bounds_of_index (i : Nat) (hi : 1 ≤ i) :
    ∃ m : Nat, _spiral_index_to_radius i = m + 1 ∧
      _spiral_index_start_of_ring (m + 1) ≤ i ∧
      i < _spiral_index_start_of_ring (m + 1) + 6 * (m + 1) := by
  have hnz : ¬ (i = 0) := by omega
  have ha3 : 3 ≤ Nat.sqrt (9 + 12 * (i - 1)) := Nat.le_sqrt.2 (by omega)
  have hsq1 : Nat.sqrt (9 + 12 * (i - 1)) * Nat.sqrt (9 + 12 * (i - 1)) ≤ 9 + 12 * (i - 1) :=
    Nat.sqrt_le (9 + 12 * (i - 1))
  have hsq2 := Nat.lt_succ_sqrt (9 + 12 * (i - 1))
  simp only [Nat.succ_eq_add_one] at hsq2
  set a := Nat.sqrt (9 + 12 * (i - 1)) with ha
  obtain ⟨m, hm⟩ : ∃ m, (3 + a) / 6 = m + 1 := ⟨(3 + a) / 6 - 1, by omega⟩
  refine ⟨m, ?_, ?_, ?_⟩
  · rw [_spiral_index_to_radius, if_neg hnz]
    exact hm
  · have hs := start_of_ring_succ m
    have hql : 12 * (3 * (m + 1) * m) + 9 = (6 * m + 3) * (6 * m + 3) := by ring
    have hla : 6 * m + 3 ≤ a := by omega
    have hmul : (6 * m + 3) * (6 * m + 3) ≤ a * a := Nat.mul_le_mul hla hla
    omega
  · have hs := start_of_ring_succ m
    have hql : 12 * (3 * (m + 1) * m) + 9 = (6 * m + 3) * (6 * m + 3) := by ring
    have hq2 : (6 * m + 9) * (6 * m + 9) = (6 * m + 3) * (6 * m + 3) + 72 * m + 72 := by ring
    have hua : a ≤ 6 * m + 8 := by omega
    have hmul : (a + 1) * (a + 1) ≤ (6 * m + 9) * (6 * m + 9) :=
      Nat.mul_le_mul (by omega) (by omega)
    omega

theorem pyListGet_nonneg (l : List α) (j : Nat) (hj : j < l.length) :
    pyListGet l (j : Int) = l[j]? := by
  unfold pyListGet
  have h0 : ¬ ((j : Int) < 0) := by omega
  simp only [h0, if_false]
  rw [dif_pos (by omega)]
  rw [List.getElem?_eq_getElem (by simpa using hj)]
  simp [List.get_eq_getElem]

theorem cube_distance_nonneg (a b : HexPoint) : 0 ≤ cube_distance a b := by
  simp only [cube_distance, Int.abs_eq_natAbs]
  omega

theorem spiral_roundtrip_point (p : HexPoint) (h0 : p.q + p.r + p.s = 0) :
    ∃ i : Nat, cube_to_spiral p = Except.ok i ∧ spiral_to_cube i = some p := by
  by_cases hz : p = ⟨0, 0, 0⟩
  · subst hz
    exact ⟨0, rfl, rfl⟩
  · have hdpos : 1 ≤ cube_distance p ⟨0, 0, 0⟩ := by
      rcases p with ⟨q, rc, s⟩
      simp only [cube_distance, Int.abs_eq_natAbs]
      simp only at h0
      have : ¬ (q = 0 ∧ rc = 0 ∧ s = 0) := by
        intro h
        exact hz (by simp [h.1, h.2.1, h.2.2])
      omega
    obtain ⟨m, k, hm, hk, hp⟩ :=
      ring_complete p (cube_distance p ⟨0, 0, 0⟩) h0 rfl hdpos
    set dNat := (cube_distance p ⟨0, 0, 0⟩).toNat with hdn
    have hd1 : 1 ≤ dNat := by omega
    have hdcast : cube_distance p ⟨0, 0, 0⟩ = (dNat : Int) := by omega
    have hkNat : k < dNat := by omega
    rw [hdcast] at hp
    have hring : cube_ring ⟨0, 0, 0⟩ ((dNat : Nat) : Int) =
        .ok (ringListC ⟨0, 0, 0⟩ dNat) :=
      cube_ring_pos _ dNat hd1
    have hfind : firstIdx p (ringListC ⟨0, 0, 0⟩ dNat) = some (m * dNat + k) := by
      rw [hp]
      exact firstIdx_ring dNat m k hd1 hm hkNat
    refine ⟨m * dNat + k + _spiral_index_start_of_ring dNat, ?_, ?_⟩
    · simp only [cube_to_spiral, hdcast, hring, hfind, Int.toNat_ofNat]
    · obtain ⟨mm, hmm⟩ : ∃ mm, dNat = mm + 1 := ⟨dNat - 1, by omega⟩
      have hjlt : m * dNat + k < 6 * dNat := by
        have hmr : m * dNat ≤ 5 * dNat := Nat.mul_le_mul_right dNat (by omega)
        omega
      have hrad : _spiral_index_to_radius
          (m * dNat + k + _spiral_index_start_of_ring dNat) = dNat := by
        rw [Nat.add_comm, hmm]
        rw [hmm] at hjlt
        exact radius_of_index mm (m * (mm + 1) + k) hjlt
      have hsub : ((m * dNat + k + _spiral_index_start_of_ring dNat : Nat) : Int) -
          ((_spiral_index_start_of_ring dNat : Nat) : Int) = ((m * dNat + k : Nat) : Int) := by
        omega
      simp only [spiral_to_cube, hrad, cube_ring_pos _ dNat hd1, hsub,
        pyListGet_nonneg (ringListC ⟨0, 0, 0⟩ dNat) (m * dNat + k)
          (by rw [ringListC_length]; omega),
        ringListC_getElem dNat hd1 m k hm hkNat, hp]

theorem spiral_roundtrip_index (i : Nat) :
    ∃ p : HexPoint, spiral_to_cube i = some p ∧ cube_to_spiral p = Except.ok i := by
  by_cases hz : i = 0
  · subst hz
    exact ⟨⟨0, 0, 0⟩, rfl, rfl⟩
  · obtain ⟨m, hrad, hlo, hhi⟩ := radius_bounds_of_index i (by omega)
    set n := m + 1 with hn
    set j := i - _spiral_index_start_of_ring n with hj
    have hjlt : j < 6 * n := by omega
    have hn1 : 1 ≤ n := by omega
    have hdj : j / n < 6 := (Nat.div_lt_iff_lt_mul (by omega)).2 (by omega)
    have hkj : j % n < n := Nat.mod_lt _ (by omega)
    refine ⟨sidePoint (n : Int) (j / n) ((j % n : Nat) : Int), ?_, ?_⟩
    · have hsub : ((i : Nat) : Int) - ((_spiral_index_start_of_ring n : Nat) : Int) =
          ((j : Nat) : Int) := by omega
      simp only [spiral_to_cube, hrad, cube_ring_pos _ n hn1, hsub,
        pyListGet_nonneg (ringListC ⟨0, 0, 0⟩ n) j (by rw [ringListC_length]; exact hjlt),
        ringListC_getElem_div n hn1 j hjlt]
    · have hdist : cube_distance (sidePoint (n : Int) (j / n) ((j % n : Nat) : Int)) ⟨0, 0, 0⟩ =
          (n : Int) :=
        sidePoint_dist (n : Int) (j / n) ((j % n : Nat) : Int) (by omega) hdj
          (by omega) (by omega)
      have hfind := firstIdx_ring n (j / n) (j % n) hn1 hdj hkj
      have hdm : j / n * n + j % n = j := by
        rw [Nat.mul_comm]; exact Nat.div_add_mod j n
      simp only [cube_to_spiral, hdist, cube_ring_pos _ n hn1, hfind, Int.toNat_ofNat]
      rw [hdm]
      refine congrArg _ ?_
      omega

/-- C1: the spiral indexing is a bijection: for every `HexPoint p` with
`q + r + s == 0`, `spiral_to_cube (cube_to_spiral p) == p`, and for every
non-negative integer `i`, `cube_to_spiral (spiral_to_cube i) == i`. -/
theorem spiral_indexing_bijection :
    (∀ p : HexPoint, p.q + p.r + p.s = 0 →
        ∃ i : Nat, cube_to_spiral p = Except.ok i ∧ spiral_to_cube i = some p) ∧
    (∀ i : Nat, ∃ p : HexPoint, spiral_to_cube i = some p ∧
        cube_to_spiral p = Except.ok i) :=
  ⟨spiral_roundtrip_point, spiral_roundtrip_index⟩

/-- Witness for C1 at the concrete point `(2, -1, -1)` and index `9`. -/
theorem spiral_indexing_bijection_witness :
    ((⟨2, -1, -1⟩ : HexPoint).q + (⟨2, -1, -1⟩ : HexPoint).r + (⟨2, -1, -1⟩ : HexPoint).s = 0) ∧
      (∃ i : Nat, cube_to_spiral ⟨2, -1, -1⟩ = Except.ok i ∧
        spiral_to_cube i = some ⟨2, -1, -1⟩) ∧
      (∃ p : HexPoint, spiral_to_cube 9 = some p ∧ cube_to_spiral p = Except.ok 9) :=
  ⟨by decide, spiral_indexing_bijection.1 ⟨2, -1, -1⟩ (by decide),
    spiral_indexing_bijection.2 9⟩

theorem cube_distance_translate (c v : HexPoint) :
    cube_distance c (c + v) = cube_distance v ⟨0, 0, 0⟩ := by
  simp only [cube_distance, HexPoint.add_q, HexPoint.add_r, HexPoint.add_s]
  rw [show c.q - (c.q + v.q) = -v.q by ring, show c.r - (c.r + v.r) = -v.r by ring,
    show c.s - (c.s + v.s) = -v.s by ring, abs_neg, abs_neg, abs_neg]
  simp

theorem dist_c_side (c : HexPoint) (k : Nat) (hk1 : 1 ≤ k) (m kk : Nat)
    (hm : m < 6) (hkk : kk < k) :
    cube_distance c (sideStart c (k : Int) m + cubeDir m * (kk : Int)) = (k : Int) := by
  have hassoc : sideStart c (k : Int) m + cubeDir m * (kk : Int) =
      c + (sideStart ⟨0, 0, 0⟩ (k : Int) m + cubeDir m * (kk : Int)) := by
    rw [sideStart_shift]
    refine HexPoint.ext_components ?_ ?_ ?_ <;> simp <;> ring
  rw [hassoc, side_point_eq _ _ m hm, cube_distance_translate]
  exact sidePoint_dist _ m _ (by omega) hm (by omega) (by omega)

/-- C3: `cube_ring(center, 0) == [center]`; for every radius `k ≥ 1`,
`cube_ring(center, k)` returns exactly `6*k` points, each at cube distance `k`
from the center, enumerated by starting at `center + direction[4]*k` and
walking six sides of `k` unit steps each in direction order `[0,1,2,3,4,5]`,
appending each point before stepping (this is precisely the list
`ringListC center k`, built from `sideStart`/`sideListC`); `cube_ring` fails
with an error for every negative radius. -/
theorem cube_ring_spec :
    (∀ c : HexPoint, cube_ring c 0 = Except.ok [c]) ∧
    (∀ (c : HexPoint) (k : Nat), 1 ≤ k →
        cube_ring c (k : Int) = Except.ok (ringListC c k) ∧
        (ringListC c k).length = 6 * k ∧
        (∀ p ∈ ringListC c k, cube_distance c p = (k : Int))) ∧
    (∀ (c : HexPoint) (radius : Int), radius < 0 →
        cube_ring c radius = Except.error "Radius must be positive") := by
  refine ⟨fun c => rfl, fun c k hk => ⟨cube_ring_pos c k hk, ringListC_length c k, ?_⟩,
    fun c radius hneg => ?_⟩
  · intro p hp
    simp only [ringListC, sideListC, List.mem_append, List.mem_map,
      List.mem_range] at hp
    rcases hp with ⟨kk, hkk, rfl⟩ | ⟨kk, hkk, rfl⟩ | ⟨kk, hkk, rfl⟩ |
      ⟨kk, hkk, rfl⟩ | ⟨kk, hkk, rfl⟩ | ⟨kk, hkk, rfl⟩
    · exact dist_c_side c k hk 0 kk (by omega) hkk
    · exact dist_c_side c k hk 1 kk (by omega) hkk
    · exact dist_c_side c k hk 2 kk (by omega) hkk
    · exact dist_c_side c k hk 3 kk (by omega) hkk
    · exact dist_c_side c k hk 4 kk (by omega) hkk
    · exact dist_c_side c k hk 5 kk (by omega) hkk
  · simp [cube_ring, hneg]

/-- Witness for C3 at center `(1, -1, 0)`, radius `2`, and negative radius `-1`. -/
theorem cube_ring_spec_witness :
    cube_ring ⟨1, -1, 0⟩ 0 = Except.ok [⟨1, -1, 0⟩] ∧
      ((1 : Nat) ≤ 2 ∧
        (cube_ring ⟨1, -1, 0⟩ ((2 : Nat) : Int) = Except.ok (ringListC ⟨1, -1, 0⟩ 2) ∧
          (ringListC ⟨1, -1, 0⟩ 2).length = 6 * 2 ∧
          (∀ p ∈ ringListC ⟨1, -1, 0⟩ 2, cube_distance ⟨1, -1, 0⟩ p = ((2 : Nat) : Int)))) ∧
      ((-1 : Int) < 0 ∧ cube_ring ⟨1, -1, 0⟩ (-1) = Except.error "Radius must be positive") :=
  ⟨cube_ring_spec.1 ⟨1, -1, 0⟩,
    ⟨by decide, cube_ring_spec.2.1 ⟨1, -1, 0⟩ 2 (by decide)⟩,
    ⟨by decide, cube_ring_spec.2.2 ⟨1, -1, 0⟩ (-1) (by decide)⟩⟩

/-- C5 (amended): for direction `d` in `[0,5]`, `cube_neighbor(p, d)` is
`p + CUBE_DIRECTIONS[d]`; for `d` in `[-6,-1]`, Python's negative list indexing
makes it `p + CUBE_DIRECTIONS[d+6]` with no error; only `d >= 6` or `d < -6`
raise an out-of-range error. -/
theorem cube_neighbor_spec (p : HexPoint) (d : Int) :
    (0 ≤ d → d < 6 →
      cube_neighbor p d = some (p + CUBE_DIRECTIONS.getD d.toNat ⟨0, 0, 0⟩)) ∧
    (-6 ≤ d → d < 0 →
      cube_neighbor p d = some (p + CUBE_DIRECTIONS.getD (d + 6).toNat ⟨0, 0, 0⟩)) ∧
    (6 ≤ d ∨ d < -6 → cube_neighbor p d = none) := by
  have hlen : CUBE_DIRECTIONS.length = 6 := rfl
  refine ⟨?_, ?_, ?_⟩
  · intro h0 h6
    interval_cases d <;> rfl
  · intro h0 h6
    interval_cases d <;> rfl
  · intro h
    simp only [cube_neighbor, pyListGet, hlen]
    rw [dif_neg]
    · rfl
    · by_cases hd : d < 0
      · simp only [if_pos hd]
        omega
      · simp only [if_neg hd]
        omega

/-- C5 counterexample: the claim says every direction outside `[0,5]` fails,
but `cube_neighbor(origin, -1)` succeeds, returning
`origin + CUBE_DIRECTIONS[5] = (1, -1, 0)`. -/
theorem cube_neighbor_neg_one_no_error :
    cube_neighbor ⟨0, 0, 0⟩ (-1) = some ⟨1, -1, 0⟩ := rfl

/-- Witness for C5 at `p = (1, 0, -1)` with directions `2`, `-2` and `7`. -/
theorem cube_neighbor_spec_witness :
    ((0 : Int) ≤ 2 ∧ (2 : Int) < 6 ∧
      cube_neighbor ⟨1, 0, -1⟩ 2 =
        some (⟨1, 0, -1⟩ + CUBE_DIRECTIONS.getD (2 : Int).toNat ⟨0, 0, 0⟩)) ∧
    ((-6 : Int) ≤ -2 ∧ (-2 : Int) < 0 ∧
      cube_neighbor ⟨1, 0, -1⟩ (-2) =
        some (⟨1, 0, -1⟩ + CUBE_DIRECTIONS.getD ((-2 : Int) + 6).toNat ⟨0, 0, 0⟩)) ∧
    (((6 : Int) ≤ 7 ∨ (7 : Int) < -6) ∧ cube_neighbor ⟨1, 0, -1⟩ 7 = none) :=
  ⟨⟨by decide, by decide, (cube_neighbor_spec ⟨1, 0, -1⟩ 2).1 (by decide) (by decide)⟩,
    ⟨by decide, by decide, (cube_neighbor_spec ⟨1, 0, -1⟩ (-2)).2.1 (by decide) (by decide)⟩,
    ⟨Or.inl (by decide), (cube_neighbor_spec ⟨1, 0, -1⟩ 7).2.2 (Or.inl (by decide))⟩⟩

/-- C2 (code evaluation): the odd-q pair round-trips exactly in both
directions, but the odd-r pair does not: `_oddr_to_cube` treats its first
argument as the row, so the offset round trip returns the transposed pair
`(y, x)` for every input, and the cube round trip at `(1, 0, -1)` returns
`(0, 1, -1)`. -/
theorem offset_conversion_roundtrips :
    (∀ x y : Int,
      _cube_to_oddq (_oddq_to_cube x y).q (_oddq_to_cube x y).r (_oddq_to_cube x y).s
        = (x, y)) ∧
    (∀ q r : Int,
      _oddq_to_cube (_cube_to_oddq q r (-q - r)).1 (_cube_to_oddq q r (-q - r)).2
        = ⟨q, r, -q - r⟩) ∧
    (∀ x y : Int,
      _cube_to_oddr (_oddr_to_cube x y).q (_oddr_to_cube x y).r (_oddr_to_cube x y).s
        = (y, x)) ∧
    (_cube_to_oddr 1 0 (-1) = (1, 0) ∧ _oddr_to_cube 1 0 = ⟨0, 1, -1⟩) := by
  refine ⟨?_, ?_, ?_, by decide⟩
  · intro x y
    simp only [_cube_to_oddq, _oddq_to_cube, Prod.mk.injEq, true_and, and_true]
    omega
  · intro q r
    simp only [_cube_to_oddq, _oddq_to_cube, HexPoint.mk.injEq, true_and, and_true]
    omega
  · intro x y
    simp only [_cube_to_oddr, _oddr_to_cube, Prod.mk.injEq, true_and, and_true]
    omega

/-- C8 (amended): `_angle_to_math_angle(angle) = (90 - angle) mod 360` holds,
but `_math_angle_to_angle(m) = (-m - 90) mod 360` is not its inverse: each
round trip equals `(angle + 180) mod 360`, which differs from `angle` on all
of `[0, 360)`. -/
theorem angle_conversion_spec (a : Int) :
    _angle_to_math_angle a = (90 - a) % 360 ∧
    _math_angle_to_angle a = (-a - 90) % 360 ∧
    _math_angle_to_angle (_angle_to_math_angle a) = (a + 180) % 360 ∧
    _angle_to_math_angle (_math_angle_to_angle a) = (a + 180) % 360 := by
  unfold _angle_to_math_angle _math_angle_to_angle
  refine ⟨by omega, by omega, by omega, by omega⟩

/-- C8 counterexample: the round trip at compass angle `0` returns `180`,
not `0`, so `_math_angle_to_angle` is not the inverse of
`_angle_to_math_angle`. -/
theorem angle_roundtrip_cex :
    _math_angle_to_angle (_angle_to_math_angle 0) = 180 ∧
      ¬ _math_angle_to_angle (_angle_to_math_angle 0) = 0 := by decide

theorem pyRound_intCast (n : Int) : pyRound ((n : Int) : Rat) = n := by
  unfold pyRound
  rw [Int.floor_intCast]
  rw [if_pos (by norm_num)]

/-- C4: every result of `cube_round` satisfies `q + r + s == 0`; exact integer
inputs come back unchanged; an omitted `frac_s` is derived as
`-frac_q - frac_r`; and the correction step fixes `q` when its rounding error
is strictly largest, else fixes `r` when its error strictly exceeds `s`'s,
else fixes `s`. -/
theorem cube_round_spec :
    (∀ fq fr fs : Rat,
      (cube_round fq fr (some fs)).q + (cube_round fq fr (some fs)).r +
        (cube_round fq fr (some fs)).s = 0) ∧
    (∀ fq fr : Rat, cube_round fq fr none = cube_round fq fr (some (-fq - fr))) ∧
    (∀ q r s : Int, q + r + s = 0 →
      cube_round ((q : Int) : Rat) ((r : Int) : Rat) (some ((s : Int) : Rat)) = ⟨q, r, s⟩) ∧
    (∀ q r : Int,
      cube_round ((q : Int) : Rat) ((r : Int) : Rat) none = ⟨q, r, -q - r⟩) ∧
    (∀ fq fr fs : Rat,
      (|(pyRound fq : Rat) - fq| > |(pyRound fr : Rat) - fr| ∧
          |(pyRound fq : Rat) - fq| > |(pyRound fs : Rat) - fs| →
        cube_round fq fr (some fs) = ⟨-(pyRound fr) - pyRound fs, pyRound fr, pyRound fs⟩) ∧
      (¬ (|(pyRound fq : Rat) - fq| > |(pyRound fr : Rat) - fr| ∧
            |(pyRound fq : Rat) - fq| > |(pyRound fs : Rat) - fs|) →
          |(pyRound fr : Rat) - fr| > |(pyRound fs : Rat) - fs| →
        cube_round fq fr (some fs) = ⟨pyRound fq, -(pyRound fq) - pyRound fs, pyRound fs⟩) ∧
      (¬ (|(pyRound fq : Rat) - fq| > |(pyRound fr : Rat) - fr| ∧
            |(pyRound fq : Rat) - fq| > |(pyRound fs : Rat) - fs|) →
          ¬ (|(pyRound fr : Rat) - fr| > |(pyRound fs : Rat) - fs|) →
        cube_round fq fr (some fs) = ⟨pyRound fq, pyRound fr, -(pyRound fq) - pyRound fr⟩)) := by
  refine ⟨?_, ?_, ?_, ?_, ?_⟩
  · intro fq fr fs
    simp only [cube_round]
    split_ifs <;> simp <;> ring
  · intro fq fr
    rfl
  · intro q r s hsum
    simp only [cube_round, pyRound_intCast]
    rw [if_neg (by simp), if_neg (by simp)]
    refine HexPoint.ext_components ?_ ?_ ?_ <;> simp <;> omega
  · intro q r
    simp only [cube_round, pyRound_intCast]
    rw [if_neg ?hc1, if_neg ?hc2]
    case hc1 =>
      rw [show -((q : Int) : Rat) - ((r : Int) : Rat) = (((-q - r : Int) : Int) : Rat) by push_cast; ring,
        pyRound_intCast]
      simp
    case hc2 =>
      rw [show -((q : Int) : Rat) - ((r : Int) : Rat) = (((-q - r : Int) : Int) : Rat) by push_cast; ring,
        pyRound_intCast]
      simp
  · intro fq fr fs
    refine ⟨?_, ?_, ?_⟩
    · intro h
      simp only [cube_round]
      rw [if_pos h]
    · intro h1 h2
      simp only [cube_round]
      rw [if_neg h1, if_pos h2]
    · intro h1 h2
      simp only [cube_round]
      rw [if_neg h1, if_neg h2]

/-- Witness for C4 at concrete inputs: integers `(1, 1, -2)`, the two-argument
form at `(2, 3)`, and the fractional input `(7/10, 1/10, -4/5)` whose largest
rounding error is on `q`. -/
theorem cube_round_spec_witness :
    ((cube_round (1 / 2 : Rat) (1 / 3) (some (2 / 5))).q +
        (cube_round (1 / 2 : Rat) (1 / 3) (some (2 / 5))).r +
        (cube_round (1 / 2 : Rat) (1 / 3) (some (2 / 5))).s = 0) ∧
    ((1 : Int) + 1 + (-2) = 0 ∧
      cube_round (((1 : Int) : Rat)) (((1 : Int) : Rat)) (some (((-2 : Int) : Rat))) = ⟨1, 1, -2⟩) ∧
    (cube_round (((2 : Int) : Rat)) (((3 : Int) : Rat)) none = ⟨2, 3, -2 - 3⟩) ∧
    ((|(pyRound (7 / 10 : Rat) : Rat) - 7 / 10| > |(pyRound (1 / 10 : Rat) : Rat) - 1 / 10| ∧
        |(pyRound (7 / 10 : Rat) : Rat) - 7 / 10| > |(pyRound (-4 / 5 : Rat) : Rat) - -4 / 5|) ∧
      cube_round (7 / 10 : Rat) (1 / 10) (some (-4 / 5)) =
        ⟨-(pyRound (1 / 10 : Rat)) - pyRound (-4 / 5 : Rat), pyRound (1 / 10 : Rat),
          pyRound (-4 / 5 : Rat)⟩) :=
  ⟨cube_round_spec.1 (1 / 2) (1 / 3) (2 / 5),
    ⟨by decide, cube_round_spec.2.2.1 1 1 (-2) (by decide)⟩,
    cube_round_spec.2.2.2.1 2 3,
    ⟨by
      norm_num [pyRound]
      constructor <;> rw [abs_of_pos (by norm_num), abs_of_pos (by norm_num)] <;> norm_num,
     (cube_round_spec.2.2.2.2 (7 / 10) (1 / 10) (-4 / 5)).1
      (by
        norm_num [pyRound]
        constructor <;> rw [abs_of_pos (by norm_num), abs_of_pos (by norm_num)] <;> norm_num)⟩⟩

/-- C9 (code evaluation): accessing `spacing` always raises instead of
returning the claimed orientation-dependent spacing: `__init__` caches the
falsy `Size(0, 0)`, so the getter reaches `self._spacing.width = ...`, an
attribute assignment on an immutable `NamedTuple`, and raises
`AttributeError` for either orientation and any radius. -/
theorem hexmap_spacing_always_raises (o : GridOrientation) (radius : Int) :
    (HexMap.init radius o : HexMap Unit).spacing =
      Except.error "AttributeError: cannot set attribute" := by
  have h : (⟨0, 0⟩ : Size).truthy = false := by
    simp [Size.truthy]
  simp [HexMap.spacing, HexMap.init, h]

/-- C10: reading `xy` (and therefore `x` or `y`) of any cell always raises
`TypeError`, because the getter passes a single `HexPoint` to
`_cube_to_oddr` / `_cube_to_oddq`, which require the three components as
separate arguments; the offset read accessors are never usable. -/
theorem hexcell_xy_always_type_error (c : HexCell α) :
    (∃ e, c.xy = Except.error e) ∧ (∃ e, c.x = Except.error e) ∧
      (∃ e, c.y = Except.error e) := by
  by_cases h : c._orientation = GridOrientation.POINTY_TOP
  · refine ⟨⟨"TypeError: _cube_to_oddr() missing 2 required positional arguments", ?_⟩,
      ⟨"TypeError: _cube_to_oddr() missing 2 required positional arguments", ?_⟩,
      ⟨"TypeError: _cube_to_oddr() missing 2 required positional arguments", ?_⟩⟩ <;>
      simp [HexCell.xy, HexCell.x, HexCell.y, h, _cube_to_oddr_call, Except.map]
  · refine ⟨⟨"TypeError: _cube_to_oddq() missing 2 required positional arguments", ?_⟩,
      ⟨"TypeError: _cube_to_oddq() missing 2 required positional arguments", ?_⟩,
      ⟨"TypeError: _cube_to_oddq() missing 2 required positional arguments", ?_⟩⟩ <;>
      simp [HexCell.xy, HexCell.x, HexCell.y, h, _cube_to_oddq_call, Except.map]

theorem dictGet_dictSet_self (g : List (HexPoint × HexCell α)) (p : HexPoint)
    (c : HexCell α) : dictGet (dictSet g p c) p = some c := by
  induction g with
  | nil => simp [dictGet, dictSet]
  | cons e t ih =>
    by_cases h : e.1 = p
    · simp [dictGet, dictSet, h]
    · simp [dictGet, dictSet, h, ih]

theorem dictGet_dictSet_ne (g : List (HexPoint × HexCell α)) (p p2 : HexPoint)
    (c : HexCell α) (h : p2 ≠ p) : dictGet (dictSet g p c) p2 = dictGet g p2 := by
  have hpne : ¬ p = p2 := fun hh => h hh.symm
  induction g with
  | nil => simp [dictGet, dictSet, hpne]
  | cons e t ih =>
    by_cases he : e.1 = p
    · subst he
      simp only [dictSet, if_pos rfl]
      have hne2 : ¬ e.1 = p2 := hpne
      simp [dictGet, hne2]
    · by_cases he2 : e.1 = p2
      · simp [dictGet, dictSet, he, he2, h]
      · simp [dictGet, dictSet, he, he2, ih]

theorem dictSet_keys_of_mem (g : List (HexPoint × HexCell α)) (p : HexPoint)
    (c : HexCell α) (h : (dictGet g p).isSome) :
    (dictSet g p c).map Prod.fst = g.map Prod.fst := by
  induction g with
  | nil => simp [dictGet] at h
  | cons e t ih =>
    by_cases he : e.1 = p
    · simp [dictSet, he]
    · simp only [dictGet, if_neg he] at h
      simp [dictSet, he, ih h]

theorem dictSet_keys_of_not_mem (g : List (HexPoint × HexCell α)) (p : HexPoint)
    (c : HexCell α) (h : dictGet g p = none) :
    (dictSet g p c).map Prod.fst = g.map Prod.fst ++ [p] := by
  induction g with
  | nil => simp [dictSet]
  | cons e t ih =>
    by_cases he : e.1 = p
    · simp [dictGet, he] at h
    · simp only [dictGet, if_neg he] at h
      simp [dictSet, he, ih h]

theorem dictGet_isSome_iff_mem (g : List (HexPoint × HexCell α)) (p : HexPoint) :
    (dictGet g p).isSome = true ↔ p ∈ g.map Prod.fst := by
  induction g with
  | nil => simp [dictGet]
  | cons e t ih =>
    by_cases he : e.1 = p
    · simp [dictGet, he]
    · have hne : ¬ p = e.1 := fun hh => he hh.symm
      simp [dictGet, he, ih, hne]

/-- C6: when both points are present, `swap` exchanges exactly the two
payloads (each cell keeps its point, orientation, radius and size; the pixel
caches are invalidated), the key sequence and every other cell are unchanged,
and the rest of the map state is untouched; when either point is absent it
fails with the not-found `ValueError`, leaving the state unchanged. -/
theorem hexmap_swap_spec :
    (∀ (α : Type) (m : HexMap α) (p1 p2 : HexPoint) (c1 c2 : HexCell α), p1 ≠ p2 →
      m.get p1 = some c1 → m.get p2 = some c2 →
      ∃ m2, m.swap p1 p2 = Except.ok m2 ∧
        m2._grid.map Prod.fst = m._grid.map Prod.fst ∧
        m2.get p1 = some { c1 with _data := c2._data, _pixel_xy := none } ∧
        m2.get p2 = some { c2 with _data := c1._data, _pixel_xy := none } ∧
        (∀ p, p ≠ p1 → p ≠ p2 → m2.get p = m.get p) ∧
        m2._orientation = m._orientation ∧ m2._radius = m._radius ∧
        m2._spacing = m._spacing ∧ m2._reference = m._reference ∧
        m2._offset = m._offset) ∧
    (∀ (α : Type) (m : HexMap α) (p1 p2 : HexPoint),
      m.get p1 = none ∨ m.get p2 = none →
      m.swap p1 p2 = Except.error "One or both points are not in the map") := by
  constructor
  · intro α m p1 p2 c1 c2 hne h1 h2
    have hg1 : dictGet m._grid p1 = some c1 := h1
    have hg2 : dictGet m._grid p2 = some c2 := h2
    have hc1 : (dictGet m._grid p1).isSome = true := by rw [hg1]; rfl
    have hg1b : dictGet (dictSet m._grid p1 ((c1.setData c2._data).clearcache)) p2 = some c2 := by
      rw [dictGet_dictSet_ne _ _ _ _ hne.symm, hg2]
    refine ⟨{ m with _grid := dictSet (dictSet m._grid p1
        ((c1.setData c2._data).clearcache)) p2 ((c2.setData c1._data).clearcache) },
      ?_, ?_, ?_, ?_, ?_, rfl, rfl, rfl, rfl, rfl⟩
    · simp only [HexMap.swap, hg1, hg2]
      rw [if_neg (by simp [HexMap.contains, hg1, hg2])]
    · show (dictSet (dictSet m._grid p1 _) p2 _).map Prod.fst = _
      rw [dictSet_keys_of_mem _ p2 _ (by rw [hg1b]; rfl),
        dictSet_keys_of_mem _ p1 _ hc1]
    · show dictGet (dictSet (dictSet m._grid p1 _) p2 _) p1 = _
      rw [dictGet_dictSet_ne _ _ _ _ hne, dictGet_dictSet_self]
      rfl
    · show dictGet (dictSet (dictSet m._grid p1 _) p2 _) p2 = _
      rw [dictGet_dictSet_self]
      rfl
    · intro p hp1 hp2
      show dictGet (dictSet (dictSet m._grid p1 _) p2 _) p = _
      rw [dictGet_dictSet_ne _ _ _ _ hp2, dictGet_dictSet_ne _ _ _ _ hp1]
      rfl
  · intro α m p1 p2 h
    have hcontains : (m.contains p1 && m.contains p2) = false := by
      rcases h with h | h <;> simp [HexMap.contains, HexMap.get] at h ⊢ <;> simp [h]
    simp [HexMap.swap, hcontains]

/-- Witness for C6: the two cells of a concrete grid really swap payloads, and
`swap` on an empty grid really reports the not-found error. -/
theorem hexmap_swap_spec_witness :
    ((⟨0, 0, 0⟩ : HexPoint) ≠ ⟨1, 0, -1⟩ ∧
      swapDemo.get ⟨0, 0, 0⟩ =
        some (HexCell.init GridOrientation.POINTY_TOP ⟨0, 0, 0⟩ 100 (some 1)) ∧
      swapDemo.get ⟨1, 0, -1⟩ =
        some (HexCell.init GridOrientation.POINTY_TOP ⟨1, 0, -1⟩ 100 (some 2)) ∧
      ∃ m2, swapDemo.swap ⟨0, 0, 0⟩ ⟨1, 0, -1⟩ = Except.ok m2 ∧
        m2._grid.map Prod.fst = swapDemo._grid.map Prod.fst ∧
        m2.get ⟨0, 0, 0⟩ = some { HexCell.init GridOrientation.POINTY_TOP ⟨0, 0, 0⟩ 100
            (some 1) with _data := some 2, _pixel_xy := none } ∧
        m2.get ⟨1, 0, -1⟩ = some { HexCell.init GridOrientation.POINTY_TOP ⟨1, 0, -1⟩ 100
            (some 2) with _data := some 1, _pixel_xy := none } ∧
        (∀ p, p ≠ ⟨0, 0, 0⟩ → p ≠ ⟨1, 0, -1⟩ → m2.get p = swapDemo.get p) ∧
        m2._orientation = swapDemo._orientation ∧ m2._radius = swapDemo._radius ∧
        m2._spacing = swapDemo._spacing ∧ m2._reference = swapDemo._reference ∧
        m2._offset = swapDemo._offset) ∧
    ((HexMap.init 100 GridOrientation.POINTY_TOP : HexMap Nat).get ⟨0, 0, 0⟩ = none ∧
      (HexMap.init 100 GridOrientation.POINTY_TOP : HexMap Nat).swap ⟨0, 0, 0⟩ ⟨1, 0, -1⟩ =
        Except.error "One or both points are not in the map") :=
  ⟨⟨by decide, rfl, rfl,
    hexmap_swap_spec.1 Nat swapDemo ⟨0, 0, 0⟩ ⟨1, 0, -1⟩
      (HexCell.init GridOrientation.POINTY_TOP ⟨0, 0, 0⟩ 100 (some 1))
      (HexCell.init GridOrientation.POINTY_TOP ⟨1, 0, -1⟩ 100 (some 2))
      (by decide) rfl rfl⟩,
   ⟨rfl, hexmap_swap_spec.2 Nat (HexMap.init 100 GridOrientation.POINTY_TOP)
      ⟨0, 0, 0⟩ ⟨1, 0, -1⟩ (Or.inl rfl)⟩⟩

theorem cube_ring_origin (i : Nat) :
    cube_ring ⟨0, 0, 0⟩ (i : Int) = Except.ok (ringL i) := by
  cases i with
  | zero => rfl
  | succ n => exact cube_ring_pos _ (n + 1) (by omega)

theorem hexpoint_eq_origin_of (p : HexPoint) (h0 : p.q + p.r + p.s = 0)
    (hd : cube_distance p ⟨0, 0, 0⟩ = 0) : p = ⟨0, 0, 0⟩ := by
  obtain ⟨q, rc, s⟩ := p
  simp only [cube_distance, Int.abs_eq_natAbs] at hd
  simp only at h0
  refine HexPoint.ext_components ?_ ?_ ?_ <;> simp <;> omega

theorem mem_ringL (i : Nat) (p : HexPoint) :
    p ∈ ringL i ↔ (p.q + p.r + p.s = 0 ∧ cube_distance p ⟨0, 0, 0⟩ = (i : Int)) := by
  cases i with
  | zero =>
    simp only [ringL, List.mem_singleton]
    constructor
    · rintro rfl
      exact ⟨rfl, rfl⟩
    · rintro ⟨h0, hd⟩
      exact hexpoint_eq_origin_of p h0 (by exact_mod_cast hd)
  | succ n =>
    rw [ringL, mem_ringListC (n + 1) (by omega)]
    constructor
    · rintro ⟨m, k, hm, hk, rfl⟩
      exact ⟨sidePoint_sum _ m _ hm,
        sidePoint_dist _ m _ (by omega) hm (by omega) (by omega)⟩
    · rintro ⟨h0, hd⟩
      obtain ⟨m, k, hm, hk, hp⟩ := ring_complete p ((n + 1 : Nat) : Int) h0 hd (by omega)
      exact ⟨m, k, hm, by omega, hp⟩

theorem mem_ringJoin (n : Nat) (p : HexPoint) :
    p ∈ ringJoin n ↔ (p.q + p.r + p.s = 0 ∧ cube_distance p ⟨0, 0, 0⟩ < (n : Int)) := by
  induction n with
  | zero =>
    simp only [ringJoin, List.not_mem_nil, false_iff, Nat.cast_zero]
    rintro ⟨h0, hd⟩
    have := cube_distance_nonneg p ⟨0, 0, 0⟩
    omega
  | succ n ih =>
    have hnn := cube_distance_nonneg p ⟨0, 0, 0⟩
    rw [ringJoin, List.mem_append, ih, mem_ringL]
    constructor
    · rintro (⟨h0, hd⟩ | ⟨h0, hd⟩) <;> exact ⟨h0, by omega⟩
    · rintro ⟨h0, hd⟩
      by_cases hlt : cube_distance p ⟨0, 0, 0⟩ < (n : Int)
      · exact Or.inl ⟨h0, hlt⟩
      · exact Or.inr ⟨h0, by omega⟩

theorem ringL_nodup (i : Nat) : (ringL i).Nodup := by
  cases i with
  | zero => simp [ringL]
  | succ n => exact ringListC_nodup (n + 1) (by omega)

theorem ringJoin_nodup (n : Nat) : (ringJoin n).Nodup := by
  induction n with
  | zero => simp [ringJoin]
  | succ n ih =>
    rw [ringJoin, List.nodup_append]
    refine ⟨ih, ringL_nodup n, ?_⟩
    intro p hp1 hp2
    rw [mem_ringJoin] at hp1
    rw [mem_ringL] at hp2
    omega

theorem except_ok_bind (a : β) (f : β → Except String γ) :
    (Except.ok a >>= f : Except String γ) = f a := rfl

theorem fill_foldlM (L : List Nat) : ∀ m : HexMap α,
    L.foldlM (fun (g : HexMap α) (i : Nat) =>
      match cube_ring ⟨0, 0, 0⟩ (i : Int) with
      | .error e => .error e
      | .ok pts => .ok (pts.foldl
          (fun g2 point => if g2.contains point then g2 else g2.set point none) g)) m
      = Except.ok ((L.flatMap ringL).foldl fillStep m) := by
  induction L with
  | nil => intro m; rfl
  | cons i t ih =>
    intro m
    rw [List.foldlM_cons]
    simp only [cube_ring_origin i, except_ok_bind]
    rw [ih]
    rw [List.flatMap_cons, List.foldl_append]
    rfl

theorem fill_eq (m : HexMap α) (n : Nat) :
    m.fill_to_radius (n : Int) = Except.ok ((ringJoin n).foldl fillStep m) := by
  have hrj : ∀ k : Nat, (List.range k).flatMap ringL = ringJoin k := by
    intro k
    induction k with
    | zero => rfl
    | succ j ihj => rw [List.range_succ, List.flatMap_append, ihj]; simp [ringJoin]
  show (List.range ((n : Int)).toNat).foldlM _ m = _
  rw [show ((n : Int)).toNat = n from rfl, fill_foldlM (List.range n) m, hrj n]

theorem contains_iff_mem_keys (m : HexMap α) (p : HexPoint) :
    m.contains p = true ↔ p ∈ m._grid.map Prod.fst :=
  dictGet_isSome_iff_mem m._grid p

theorem foldl_fillStep_get (pts : List HexPoint) :
    ∀ (g : HexMap α) (p : HexPoint) (c : HexCell α), g.get p = some c →
      (pts.foldl fillStep g).get p = some c := by
  induction pts with
  | nil => intro g p c h; exact h
  | cons x rest ih =>
    intro g p c h
    rw [List.foldl_cons]
    refine ih (fillStep g x) p c ?_
    rw [fillStep]
    by_cases hc : g.contains x
    · rw [if_pos hc]; exact h
    · rw [if_neg hc]
      have hne : p ≠ x := by
        intro hpx
        subst hpx
        apply hc
        show (dictGet g._grid p).isSome = true
        rw [show dictGet g._grid p = some c from h]
        rfl
      show dictGet (dictSet g._grid x _) p = some c
      rw [dictGet_dictSet_ne _ _ _ _ hne]
      exact h

theorem foldl_fillStep_keys (pts : List HexPoint) :
    ∀ g : HexMap α, (pts.foldl fillStep g)._grid.map Prod.fst =
      insertedKeys (g._grid.map Prod.fst) pts := by
  induction pts with
  | nil => intro g; rfl
  | cons p rest ih =>
    intro g
    rw [List.foldl_cons, insertedKeys, fillStep]
    by_cases hc : g.contains p
    · rw [if_pos hc, if_pos ((contains_iff_mem_keys g p).1 hc)]
      exact ih g
    · have hnone : dictGet g._grid p = none := by
        rw [HexMap.contains] at hc
        cases hd : dictGet g._grid p with
        | none => rfl
        | some c => rw [hd] at hc; exact absurd rfl hc
      have hnm : ¬ p ∈ g._grid.map Prod.fst := by
        intro hm
        exact hc ((contains_iff_mem_keys g p).2 hm)
      rw [if_neg hc, if_neg hnm, ih (g.set p none)]
      refine congrArg (fun ks => insertedKeys ks rest) ?_
      show (dictSet g._grid p _).map Prod.fst = _
      exact dictSet_keys_of_not_mem g._grid p _ hnone

theorem mem_insertedKeys (pts : List HexPoint) :
    ∀ (ks : List HexPoint) (x : HexPoint), x ∈ insertedKeys ks pts ↔ x ∈ ks ∨ x ∈ pts := by
  induction pts with
  | nil => intro ks x; simp [insertedKeys]
  | cons p rest ih =>
    intro ks x
    rw [insertedKeys]
    by_cases hm : p ∈ ks
    · rw [if_pos hm, ih]
      constructor
      · rintro (h | h)
        · exact Or.inl h
        · exact Or.inr (List.mem_cons_of_mem _ h)
      · rintro (h | h)
        · exact Or.inl h
        · rcases List.mem_cons.1 h with rfl | h2
          · exact Or.inl hm
          · exact Or.inr h2
    · rw [if_neg hm, ih]
      constructor
      · rintro (h | h)
        · rcases List.mem_append.1 h with h2 | h2
          · exact Or.inl h2
          · have hxp : x = p := by simpa using h2
            exact Or.inr (hxp ▸ List.mem_cons_self p rest)
        · exact Or.inr (List.mem_cons_of_mem _ h)
      · rintro (h | h)
        · exact Or.inl (List.mem_append.2 (Or.inl h))
        · rcases List.mem_cons.1 h with rfl | h2
          · exact Or.inl (List.mem_append.2 (Or.inr (by simp)))
          · exact Or.inr h2

theorem insertedKeys_eq_filter (pts : List HexPoint) :
    ∀ ks : List HexPoint, pts.Nodup →
      insertedKeys ks pts = ks ++ pts.filter (fun p => decide (¬ p ∈ ks)) := by
  induction pts with
  | nil => intro ks _; simp [insertedKeys]
  | cons p rest ih =>
    intro ks hnd
    have hp : ¬ p ∈ rest := (List.nodup_cons.1 hnd).1
    have hr : rest.Nodup := (List.nodup_cons.1 hnd).2
    rw [insertedKeys]
    by_cases hm : p ∈ ks
    · rw [if_pos hm, ih ks hr, List.filter_cons]
      simp [hm]
    · rw [if_neg hm, ih (ks ++ [p]) hr, List.filter_cons]
      have hflt : rest.filter (fun x => decide (¬ x ∈ ks ++ [p])) =
          rest.filter (fun x => decide (¬ x ∈ ks)) := by
        refine List.filter_congr ?_
        intro x hx
        have hxp : x ≠ p := fun hh => hp (hh ▸ hx)
        simp [List.mem_append, hxp]
      rw [hflt]
      simp [hm, List.append_assoc]

/-- C7: `fill_to_radius(n)` inserts, for `i` ascending from 0 to `n-1`, every
point of `ring(origin, i)` not already present — so the new keys are appended
in ascending-radius ring order — and leaves every already-present cell and its
payload untouched; a grid therefore ends up containing exactly its old points
plus all zero-sum points within distance `< n` of the origin, and on an empty
grid `fill_to_radius(2)` yields exactly `7` cells. -/
theorem hexmap_fill_spec :
    (∀ (α : Type) (m : HexMap α) (n : Nat),
      ∃ m2, m.fill_to_radius ((n : Nat) : Int) = Except.ok m2 ∧
        (∀ p c, m.get p = some c → m2.get p = some c) ∧
        (∀ p, m2.contains p = true ↔
          (m.contains p = true ∨
            (p.q + p.r + p.s = 0 ∧ cube_distance p ⟨0, 0, 0⟩ < (n : Int)))) ∧
        m2._grid.map Prod.fst = m._grid.map Prod.fst ++
          (ringJoin n).filter (fun p => !(m.contains p))) ∧
    (((HexMap.init 100 GridOrientation.POINTY_TOP : HexMap Unit).fill_to_radius 2).map
        (fun m2 => m2._grid.length) = Except.ok 7) := by
  constructor
  · intro α m n
    refine ⟨(ringJoin n).foldl fillStep m, fill_eq m n, ?_, ?_, ?_⟩
    · intro p c h
      exact foldl_fillStep_get (ringJoin n) m p c h
    · intro p
      rw [contains_iff_mem_keys, contains_iff_mem_keys, foldl_fillStep_keys,
        mem_insertedKeys, mem_ringJoin]
    · rw [foldl_fillStep_keys, insertedKeys_eq_filter _ _ (ringJoin_nodup n)]
      refine congrArg _ (List.filter_congr ?_)
      intro x _
      cases hc : m.contains x with
      | true =>
        have hmem := (contains_iff_mem_keys m x).1 hc
        simp [hmem]
      | false =>
        have hnm : ¬ x ∈ m._grid.map Prod.fst := by
          intro hm
          have h2 := (contains_iff_mem_keys m x).2 hm
          rw [hc] at h2
          exact Bool.noConfusion h2
        simp [hnm]
  · rfl

/-- Witness for C7: filling the two-cell demonstration grid to radius 2
preserves the existing cell's payload. -/
theorem hexmap_fill_spec_witness :
    swapDemo.get ⟨0, 0, 0⟩ =
        some (HexCell.init GridOrientation.POINTY_TOP ⟨0, 0, 0⟩ 100 (some 1)) ∧
      ∃ m2, swapDemo.fill_to_radius ((2 : Nat) : Int) = Except.ok m2 ∧
        m2.get ⟨0, 0, 0⟩ =
          some (HexCell.init GridOrientation.POINTY_TOP ⟨0, 0, 0⟩ 100 (some 1)) :=
  ⟨rfl, by
    obtain ⟨m2, hfill, hget, _, _⟩ := hexmap_fill_spec.1 Nat swapDemo 2
    exact ⟨m2, hfill, hget ⟨0, 0, 0⟩ _ rfl⟩⟩
